import Mathlib

/-!
Verification of `src/youtube_mix_dl/downloader.py` (class `YoutubeMixDownloader`).

The file shallowly embeds the two pieces of original logic of the repository:

* the scroll-and-collect loop of `get_mix_videos` (lines 41-85), modelled as a
  fuel-indexed pure function over an oracle describing what the page supplies
  at each scroll round, plus an instrumented variant that records the emitted
  progress events and the `driver.quit()` call of the `finally` block;
* the download orchestration of `download_video` (lines 87-134) and
  `download_mix` (lines 136-163), modelled over a per-item oracle describing
  the outcome of `os.makedirs` and of `yt_dlp`'s `extract_info`.

`clean_youtube_url` is imported by the source from a module that is not part
of the repository snapshot; every statement below is universally quantified
over that normalization function (`clean : String → String`), which is all
the claims need.
-/

namespace YoutubeMixDl

/-! ### Python `in` on strings (substring test), used by `"watch?v=" in href` -/

/-- `startsWithL needle hay`: `needle` is a prefix of `hay` (on char lists). -/
def startsWithL : List Char → List Char → Bool
  | [], _ => true
  | _ :: _, [] => false
  | a :: as, b :: bs => a == b && startsWithL as bs

/-- `containsSub needle hay`: `needle` occurs as a contiguous substring of
`hay`; embeds Python's `needle in hay` on strings. -/
def containsSub (needle : List Char) : List Char → Bool
  | [] => startsWithL needle []
  | b :: bs => startsWithL needle (b :: bs) || containsSub needle bs

/-- Line 70: `"watch?v=" in href`. -/
def hasWatchMarker (href : String) : Bool :=
  containsSub "watch?v=".toList href.toList

/-! ### Python `list[:n]` slicing (line 85 `video_urls[:num_videos]`).
`num_videos` is a Python `int`, hence modelled as `Int`; a negative `n` in
`l[:n]` keeps `max 0 (len l + n)` leading elements. -/

def pyTake (n : Int) (l : List String) : List String :=
  if 0 ≤ n then l.take n.toNat else l.take (l.length - n.natAbs)

/-! ### The collection step of the scrape loop -/

/-- The membership-checked append used at lines 72-73:
`if clean_url not in video_urls: video_urls.append(clean_url)`. -/
def insertUniq (acc : List String) (x : String) : List String :=
  if x ∈ acc then acc else acc ++ [x]

/-- Line 75: `video_urls = list(dict.fromkeys(video_urls))` — `dict.fromkeys`
keeps the first occurrence of each element and preserves insertion order. -/
def dedupFirst (l : List String) : List String :=
  l.foldl insertUniq []

/-- Lines 68-73: the `for item in items` harvest of one scroll round.  Each
item's `href` attribute may be absent (`none`); a present href is kept when it
contains the watch marker, normalized with `clean`, and appended if not
already in `video_urls`. -/
def collectRound (clean : String → String) :
    List (Option String) → List String → List String
  | [], acc => acc
  | none :: items, acc => collectRound clean items acc
  | some href :: items, acc =>
    collectRound clean items
      (if hasWatchMarker href then
        (if clean href ∈ acc then acc else acc ++ [clean href])
      else acc)

/-- The normalized marked hrefs a round contributes, in page order: the
sub-sequence of hrefs that are present and contain the watch marker, each
passed through `clean`. -/
def cleanMarked (clean : String → String) (items : List (Option String)) :
    List String :=
  items.filterMap (fun it =>
    match it with
    | none => none
    | some href => if hasWatchMarker href then some (clean href) else none)

/-! ### The scrape loop (lines 61-80), fuel-indexed

The Python loop `while len(video_urls) < num_videos:` has no exit other than
the `break` at lines 79-80 (whose condition is exactly the negation of the
loop guard), so one iteration = one scroll round and the loop exits if and
only if a round brings the count to at least `num_videos`.  The page is an
oracle `rounds : Nat → List (Option String)` giving the hrefs of the anchors
found at each round; `fuel` bounds how many rounds we are willing to unfold
(the real loop may diverge, which the model reports as `none`). -/

def scrapeLoopF (clean : String → String) (rounds : Nat → List (Option String))
    (N : Int) : Nat → Nat → List String → Option (List String)
  | 0, _, _ => none
  | fuel + 1, k, acc =>
    let acc2 := dedupFirst (collectRound clean (rounds k) acc)
    if N ≤ (acc2.length : Int) then some acc2
    else scrapeLoopF clean rounds N fuel (k + 1) acc2

/-- The collected list after `k` completed scroll rounds (lines 62-75 applied
`k` times starting from the empty list of line 53). -/
def runRounds (clean : String → String) (rounds : Nat → List (Option String)) :
    Nat → List String
  | 0 => []
  | k + 1 => dedupFirst (collectRound clean (rounds k) (runRounds clean rounds k))

/-- All normalized marked hrefs discovered in rounds `0..k-1`, concatenated in
discovery order (with repetitions). -/
def discovered (clean : String → String) (rounds : Nat → List (Option String)) :
    Nat → List String
  | 0 => []
  | k + 1 => discovered clean rounds k ++ cleanMarked clean (rounds k)

/-- `get_mix_videos` (lines 41-85), failure-free page: navigate, run the loop
while `len(video_urls) < num_videos` (entered only when `0 < num_videos`,
since the list starts empty), return `video_urls[:num_videos]`.  `none` means
the loop did not exit within `fuel` rounds. -/
def get_mix_videos (clean : String → String)
    (rounds : Nat → List (Option String)) (N : Int) (fuel : Nat) :
    Option (List String) :=
  if 0 < N then (scrapeLoopF clean rounds N fuel 0 []).map (pyTake N)
  else some (pyTake N [])

/-! ### Observable events

The progress callback receives plain strings in the source; we record each
call site as a structured event (the format string is noted next to each
constructor).  `quit` records the `driver.quit()` resource release of the
`finally` block — not a callback message, but an observable action of the
same trace. -/

inductive Ev where
  /-- Line 57: `"Loading playlist page..."`. -/
  | loadingPage : Ev
  /-- Line 77: `"Found {len(video_urls)} videos..."`. -/
  | foundVideos (n : Nat) : Ev
  /-- Line 83: `driver.quit()`. -/
  | quit : Ev
  /-- Line 148: `"Starting YouTube Mix downloader..."`. -/
  | startingMsg : Ev
  /-- Line 155: `"[{index}/{len(video_urls)}] Processing video..."`. -/
  | startItem (index total : Nat) : Ev
  /-- Lines 116-120: `"Downloading: {percent} of {size}"` (progress hook). -/
  | subProgress (s : String) : Ev
  /-- Line 127: `"Successfully downloaded: {title}"`. -/
  | success (title : String) : Ev
  /-- Line 133: `"Error downloading video: {e}"`. -/
  | errorMsg (e : String) : Ev
  /-- Line 161: `"Download complete! Successfully downloaded {n} videos."`. -/
  | summary (n : Nat) : Ev
deriving DecidableEq

/-- `driver.quit()` events. -/
def isQuit : Ev → Bool
  | Ev.quit => true
  | _ => false

/-- Start-of-item markers of the download loop. -/
def isStartItem : Ev → Bool
  | Ev.startItem _ _ => true
  | _ => false

/-- Per-round `"Found n videos..."` notifications of the scrape loop. -/
def isFoundMsg : Ev → Bool
  | Ev.foundVideos _ => true
  | _ => false

/-- Completion or failure messages of a single download. -/
def isOutcomeMsg : Ev → Bool
  | Ev.success _ => true
  | Ev.errorMsg _ => true
  | _ => false

/-! ### Instrumented `get_mix_videos` (lines 41-85)

A `PageOracle` additionally says which browser operations raise: `navRaises`
for `driver.get` (line 58) and `roundRaises k` for the scroll / DOM query of
round `k` (lines 62-66).  The result is `none` when the loop did not exit
within `fuel` rounds (the `finally` block is then never reached), otherwise
`some (Except.error e)` when an exception propagates and `some (Except.ok l)`
on normal return; the second component is the trace of events, in order. -/

structure PageOracle where
  navRaises : Option String
  roundRaises : Nat → Option String
  rounds : Nat → List (Option String)

def scrapeLoopT (clean : String → String) (o : PageOracle) (N : Int) :
    Nat → Nat → List String → Option (Except String (List String)) × List Ev
  | 0, _, _ => (none, [])
  | fuel + 1, k, acc =>
    match o.roundRaises k with
    | some e => (some (Except.error e), [])
    | none =>
      let acc2 := dedupFirst (collectRound clean (o.rounds k) acc)
      if N ≤ (acc2.length : Int) then
        (some (Except.ok acc2), [Ev.foundVideos acc2.length])
      else
        let r := scrapeLoopT clean o N fuel (k + 1) acc2
        (r.1, Ev.foundVideos acc2.length :: r.2)

/-- Instrumented `get_mix_videos`: the `try` body (callback, `driver.get`,
scrape loop) wrapped in `finally: driver.quit()`, then
`return video_urls[:num_videos]`.  Modelled with the progress callback
present. -/
def get_mix_videosT (clean : String → String) (o : PageOracle) (N : Int)
    (fuel : Nat) : Option (Except String (List String)) × List Ev :=
  let body : Option (Except String (List String)) × List Ev :=
    match o.navRaises with
    | some e => (some (Except.error e), [Ev.loadingPage])
    | none =>
      if 0 < N then
        let r := scrapeLoopT clean o N fuel 0 []
        (r.1, Ev.loadingPage :: r.2)
      else (some (Except.ok []), [Ev.loadingPage])
  match body.1 with
  | none => (none, body.2)
  | some (Except.error e) => (some (Except.error e), body.2 ++ [Ev.quit])
  | some (Except.ok acc) => (some (Except.ok (pyTake N acc)), body.2 ++ [Ev.quit])

/-! ### `download_video` (lines 87-134)

Everything inside the `try` that can raise or report is summarized by an
`ItemOracle`: whether `os.makedirs` raises (line 99), which sub-progress
lines the service pushes through the progress hook while downloading
(lines 116-120, installed only when a callback is present), and what
`extract_info` (line 123) does — raise, return a (truthy) info dict with an
optional `title`, or return `None`. -/

inductive ExtractResult where
  /-- `extract_info` raises an exception with message `e`. -/
  | raises (e : String) : ExtractResult
  /-- `extract_info` returns a truthy info dict; `title` is its
  `'title'` entry when present (line 127 falls back to `"Unknown title"`). -/
  | ok (title : Option String) : ExtractResult
  /-- `extract_info` returns `None` (possible under `ignoreerrors: True`). -/
  | noInfo : ExtractResult
deriving DecidableEq

structure ItemOracle where
  mkdirRaises : Option String
  hookMsgs : List String
  extract : ExtractResult

/-- `download_video`: returns the boolean result together with the events
emitted on its behalf.  `hasCb` says whether `self.progress_callback` is set;
all exceptions of the body are caught at lines 131-134 and turned into
`False`, and a `None` info at line 129 yields `False` with no message. -/
def download_video (hasCb : Bool) (o : ItemOracle) : Bool × List Ev :=
  match o.mkdirRaises with
  | some e => (false, if hasCb then [Ev.errorMsg e] else [])
  | none =>
    let hooks := if hasCb then o.hookMsgs.map Ev.subProgress else []
    match o.extract with
    | ExtractResult.raises e =>
        (false, hooks ++ (if hasCb then [Ev.errorMsg e] else []))
    | ExtractResult.ok t =>
        (true, hooks ++ (if hasCb then [Ev.success (t.getD "Unknown title")] else []))
    | ExtractResult.noInfo => (false, hooks)

/-- Whether `download_video` succeeds under oracle `o` (independent of the
callback): `os.makedirs` does not raise and `extract_info` returns a truthy
info dict. -/
def itemSucceeds (o : ItemOracle) : Bool :=
  match o.mkdirRaises with
  | some _ => false
  | none =>
    match o.extract with
    | ExtractResult.ok _ => true
    | _ => false

/-- Whether `download_video` emits a completion-or-failure message for an
item (with a callback present): a caught exception yields an error report and
a truthy info dict a success message, but a `None` info yields nothing. -/
def emitsOutcomeMsg (o : ItemOracle) : Bool :=
  match o.mkdirRaises with
  | some _ => true
  | none =>
    match o.extract with
    | ExtractResult.noInfo => false
    | _ => true

/-! ### `download_mix` (lines 136-163) -/

/-- The sequence of booleans produced by `download_video` over the URL list,
item `i` of the loop using oracle `os i` (0-based). -/
def outcomeSeq (hasCb : Bool) (os : Nat → ItemOracle) :
    List String → Nat → List Bool
  | [], _ => []
  | _ :: rest, i => (download_video hasCb (os i)).1 :: outcomeSeq hasCb os rest (i + 1)

/-- The per-item flags saying which positions emit a completion-or-failure
message. -/
def emitSeq (os : Nat → ItemOracle) : List String → Nat → List Bool
  | [], _ => []
  | _ :: rest, i => emitsOutcomeMsg (os i) :: emitSeq os rest (i + 1)

/-- Lines 153-158: `for index, video_url in enumerate(video_urls, 1)` with
the running `successful_downloads` tally; `os i` is the oracle for the item
at 0-based position `i`, `total = len(video_urls)`, `i` the current 0-based
position.  The `time.sleep(1)` of line 158 has no observable effect in the
model. -/
def dmGo (hasCb : Bool) (os : Nat → ItemOracle) (total : Nat) :
    List String → Nat → Nat × List Ev
  | [], _ => (0, [])
  | _url :: rest, i =>
    let pre := if hasCb then [Ev.startItem (i + 1) total] else []
    let dv := download_video hasCb (os i)
    let r := dmGo hasCb os total rest (i + 1)
    ((if dv.1 then 1 else 0) + r.1, pre ++ dv.2 ++ r.2)

/-- The per-item loop of `download_mix` plus the final summary notification
(lines 160-161) and the returned count (line 163), for a given URL list. -/
def download_mix_loop (hasCb : Bool) (os : Nat → ItemOracle)
    (urls : List String) : Nat × List Ev :=
  let r := dmGo hasCb os urls.length urls 0
  (r.1, r.2 ++ (if hasCb then [Ev.summary r.1] else []))

/-- `download_mix` end to end: the opening message (lines 147-148), the call
to `get_mix_videos` (line 150, failure-free page model) and the download
loop.  `none` when the scrape loop did not exit within `fuel` rounds. -/
def download_mix (hasCb : Bool) (clean : String → String)
    (rounds : Nat → List (Option String)) (os : Nat → ItemOracle) (N : Int)
    (fuel : Nat) : Option (Nat × List Ev) :=
  match get_mix_videos clean rounds N fuel with
  | none => none
  | some urls =>
    let r := download_mix_loop hasCb os urls
    (some (r.1, (if hasCb then [Ev.startingMsg] else []) ++ r.2))

/-! ### Concrete fixtures used by the witness theorems -/

/-- A page whose every round shows the same five anchors: two marked hrefs
(one repeated) and one unmarked one, plus a missing attribute. -/
def roundsAB : Nat → List (Option String) :=
  fun _ => [some "watch?v=aaa", none, some "nope", some "watch?v=bbb",
    some "watch?v=aaa"]

/-- Items: position 1 raises inside the service, others succeed with a
title. -/
def osMixed : Nat → ItemOracle := fun i =>
  if i = 1 then ItemOracle.mk none [] (ExtractResult.raises "boom")
  else ItemOracle.mk none ["50.0%"] (ExtractResult.ok (some "Song"))

/-- Items whose `extract_info` returns `None`. -/
def osNoMeta : Nat → ItemOracle := fun _ =>
  ItemOracle.mk none [] ExtractResult.noInfo

/-- A browser session whose `driver.get` raises. -/
def pageFails : PageOracle :=
  PageOracle.mk (some "net error") (fun _ => none) (fun _ => [])

/-! ### Basic lemmas on `insertUniq`, `dedupFirst`, `collectRound` -/

theorem insertUniq_eq_append (acc : List String) (x : String) :
    insertUniq acc x = acc ++ (if x ∈ acc then [] else [x]) := by
  unfold insertUniq
  split <;> simp

theorem mem_insertUniq {acc : List String} {x y : String} :
    y ∈ insertUniq acc x ↔ y ∈ acc ∨ y = x := by
  by_cases hx : x ∈ acc
  · simp only [insertUniq, if_pos hx]
    constructor
    · exact Or.inl
    · rintro (h | rfl)
      · exact h
      · exact hx
  · simp [insertUniq, hx]

theorem insertUniq_nodup {acc : List String} (x : String) (h : acc.Nodup) :
    (insertUniq acc x).Nodup := by
  by_cases hx : x ∈ acc
  · simpa [insertUniq, hx] using h
  · simp [insertUniq, hx, List.nodup_append, h]

theorem foldl_insertUniq_growth :
    ∀ (l acc : List String), ∃ t, l.foldl insertUniq acc = acc ++ t
  | [], acc => ⟨[], by simp⟩
  | a :: l, acc => by
    obtain ⟨t, ht⟩ := foldl_insertUniq_growth l (insertUniq acc a)
    refine ⟨(if a ∈ acc then [] else [a]) ++ t, ?_⟩
    rw [List.foldl_cons, ht, insertUniq_eq_append, List.append_assoc]

theorem foldl_insertUniq_nodup :
    ∀ (l acc : List String), acc.Nodup → (l.foldl insertUniq acc).Nodup
  | [], _, h => h
  | a :: l, acc, h => by
    rw [List.foldl_cons]
    exact foldl_insertUniq_nodup l _ (insertUniq_nodup a h)

theorem mem_foldl_insertUniq :
    ∀ {l acc : List String} {x : String},
      x ∈ l.foldl insertUniq acc ↔ x ∈ acc ∨ x ∈ l := by
  intro l
  induction l with
  | nil => simp
  | cons a l ih =>
    intro acc x
    rw [List.foldl_cons, ih, mem_insertUniq]
    simp only [List.mem_cons]
    tauto

theorem foldl_insertUniq_of_disjoint :
    ∀ (l acc : List String), l.Nodup → (∀ x ∈ l, x ∉ acc) →
      l.foldl insertUniq acc = acc ++ l
  | [], acc, _, _ => by simp
  | a :: l, acc, h1, h2 => by
    have ha : a ∉ acc := h2 a (by simp)
    have hnd := List.nodup_cons.mp h1
    rw [List.foldl_cons, insertUniq_eq_append, if_neg ha,
      foldl_insertUniq_of_disjoint l (acc ++ [a]) hnd.2]
    · simp
    · intro x hx
      simp only [List.mem_append, List.mem_singleton]
      rintro (hc | rfl)
      · exact h2 x (List.mem_cons_of_mem a hx) hc
      · exact hnd.1 hx

theorem dedupFirst_nodup (l : List String) : (dedupFirst l).Nodup :=
  foldl_insertUniq_nodup l [] List.nodup_nil

theorem dedupFirst_of_nodup {l : List String} (h : l.Nodup) :
    dedupFirst l = l := by
  have := foldl_insertUniq_of_disjoint l [] h (by simp)
  simpa [dedupFirst] using this

theorem cleanMarked_cons_none (clean : String → String)
    (items : List (Option String)) :
    cleanMarked clean (none :: items) = cleanMarked clean items := rfl

theorem cleanMarked_cons_some (clean : String → String) (href : String)
    (items : List (Option String)) :
    cleanMarked clean (some href :: items) =
      (if hasWatchMarker href then [clean href] else []) ++ cleanMarked clean items := by
  by_cases hm : hasWatchMarker href <;> simp [cleanMarked, hm]

theorem collectRound_eq_foldl (clean : String → String) :
    ∀ (items : List (Option String)) (acc : List String),
      collectRound clean items acc = (cleanMarked clean items).foldl insertUniq acc
  | [], acc => rfl
  | none :: items, acc => by
    rw [collectRound, cleanMarked_cons_none]
    exact collectRound_eq_foldl clean items acc
  | some href :: items, acc => by
    by_cases hm : hasWatchMarker href
    · rw [collectRound, if_pos hm, cleanMarked_cons_some, if_pos hm,
        List.singleton_append, List.foldl_cons,
        collectRound_eq_foldl clean items]
      rfl
    · rw [collectRound, if_neg hm, cleanMarked_cons_some, if_neg hm,
        List.nil_append]
      exact collectRound_eq_foldl clean items acc

/-! ### Invariants of the collected list across rounds -/

theorem runRounds_nodup (clean : String → String)
    (rounds : Nat → List (Option String)) :
    ∀ k, (runRounds clean rounds k).Nodup
  | 0 => List.nodup_nil
  | _ + 1 => dedupFirst_nodup _

/-- One round only appends: the safety-net dedup is the identity on the
already-deduplicated accumulator, which then grows by a (possibly empty)
suffix of new entries. -/
theorem runRounds_growth (clean : String → String)
    (rounds : Nat → List (Option String)) (k : Nat) :
    ∃ t, runRounds clean rounds (k + 1) = runRounds clean rounds k ++ t := by
  rw [runRounds, collectRound_eq_foldl]
  have hnd := foldl_insertUniq_nodup (cleanMarked clean (rounds k)) _
    (runRounds_nodup clean rounds k)
  rw [dedupFirst_of_nodup hnd]
  exact foldl_insertUniq_growth _ _

/-- The loop state after `k` rounds is exactly the first-seen-order
deduplication of everything discovered so far. -/
theorem runRounds_eq_dedupFirst (clean : String → String)
    (rounds : Nat → List (Option String)) :
    ∀ k, runRounds clean rounds k = dedupFirst (discovered clean rounds k)
  | 0 => rfl
  | k + 1 => by
    rw [runRounds, collectRound_eq_foldl]
    have hnd := foldl_insertUniq_nodup (cleanMarked clean (rounds k)) _
      (runRounds_nodup clean rounds k)
    rw [dedupFirst_of_nodup hnd, runRounds_eq_dedupFirst clean rounds k,
      dedupFirst, dedupFirst, ← List.foldl_append]
    rfl

theorem mem_cleanMarked {clean : String → String}
    {items : List (Option String)} {x : String} (h : x ∈ cleanMarked clean items) :
    ∃ href, x = clean href := by
  rw [cleanMarked, List.mem_filterMap] at h
  obtain ⟨it, _, hit⟩ := h
  cases it with
  | none => exact absurd hit (by simp)
  | some href =>
    have hit' : (if hasWatchMarker href = true then some (clean href) else none) =
        some x := hit
    by_cases hm : hasWatchMarker href
    · rw [if_pos hm, Option.some_inj] at hit'
      exact ⟨href, hit'.symm⟩
    · rw [if_neg hm] at hit'
      exact absurd hit' (by simp)

theorem mem_discovered {clean : String → String}
    {rounds : Nat → List (Option String)} :
    ∀ {k : Nat} {x : String}, x ∈ discovered clean rounds k → ∃ href, x = clean href := by
  intro k
  induction k with
  | zero => intro x h; exact absurd h (by simp [discovered])
  | succ k ih =>
    intro x h
    rw [discovered, List.mem_append] at h
    rcases h with h | h
    · exact ih h
    · exact mem_cleanMarked h

theorem mem_runRounds_ran {clean : String → String}
    {rounds : Nat → List (Option String)} {k : Nat} {x : String}
    (h : x ∈ runRounds clean rounds k) : ∃ href, x = clean href := by
  rw [runRounds_eq_dedupFirst, dedupFirst] at h
  rw [mem_foldl_insertUniq] at h
  rcases h with h | h
  · exact absurd h (by simp)
  · exact mem_discovered h

/-! ### Characterization of the scrape loop's exits -/

/-- If the loop (started at round `j` on the state after `j` rounds) exits,
it does so at the first round `k > j` whose state reaches `N`, and returns
that state. -/
theorem scrapeLoopF_some_characterize (clean : String → String)
    (rounds : Nat → List (Option String)) (N : Int) :
    ∀ (fuel j : Nat) (res : List String),
      scrapeLoopF clean rounds N fuel j (runRounds clean rounds j) = some res →
      ∃ k, j < k ∧ k ≤ j + fuel ∧ res = runRounds clean rounds k ∧
        N ≤ ((runRounds clean rounds k).length : Int) ∧
        ∀ i, j < i → i < k → ((runRounds clean rounds i).length : Int) < N
  | 0, j, res => by intro h; exact absurd h (by simp [scrapeLoopF])
  | fuel + 1, j, res => by
    intro h
    rw [scrapeLoopF] at h
    have hstate : dedupFirst (collectRound clean (rounds j) (runRounds clean rounds j)) =
        runRounds clean rounds (j + 1) := rfl
    rw [hstate] at h
    by_cases hN : N ≤ ((runRounds clean rounds (j + 1)).length : Int)
    · rw [if_pos hN, Option.some_inj] at h
      exact ⟨j + 1, Nat.lt_succ_self j, by omega, h.symm, hN, by omega⟩
    · rw [if_neg hN] at h
      obtain ⟨k, hk1, hk2, hk3, hk4, hk5⟩ :=
        scrapeLoopF_some_characterize clean rounds N fuel (j + 1) res h
      refine ⟨k, by omega, by omega, hk3, hk4, ?_⟩
      intro i hi1 hi2
      rcases Nat.eq_or_lt_of_le (Nat.succ_le_of_lt hi1) with hji | hji
      · rw [← hji]; exact not_le.mp hN
      · exact hk5 i (by omega) hi2

/-- If no number of rounds ever brings the count to `N`, the loop never
exits, whatever the fuel: reaching `N` is its only exit. -/
theorem scrapeLoopF_none_of_never (clean : String → String)
    (rounds : Nat → List (Option String)) (N : Int)
    (hnever : ∀ k, ((runRounds clean rounds k).length : Int) < N) :
    ∀ (fuel j : Nat),
      scrapeLoopF clean rounds N fuel j (runRounds clean rounds j) = none
  | 0, j => rfl
  | fuel + 1, j => by
    rw [scrapeLoopF]
    have hstate : dedupFirst (collectRound clean (rounds j) (runRounds clean rounds j)) =
        runRounds clean rounds (j + 1) := rfl
    rw [hstate, if_neg (by exact not_le.mpr (hnever (j + 1)))]
    exact scrapeLoopF_none_of_never clean rounds N hnever fuel (j + 1)

/-- If some round `k` reaches `N`, the loop exits once given at least `k`
rounds of fuel. -/
theorem scrapeLoopF_some_of_reached (clean : String → String)
    (rounds : Nat → List (Option String)) (N : Int) :
    ∀ (fuel j k : Nat), j < k → k ≤ j + fuel →
      N ≤ ((runRounds clean rounds k).length : Int) →
      ∃ res, scrapeLoopF clean rounds N fuel j (runRounds clean rounds j) = some res
  | 0, j, k, h1, h2, _ => absurd (Nat.lt_of_lt_of_le h1 h2) (by omega)
  | fuel + 1, j, k, h1, h2, hk => by
    rw [scrapeLoopF]
    have hstate : dedupFirst (collectRound clean (rounds j) (runRounds clean rounds j)) =
        runRounds clean rounds (j + 1) := rfl
    rw [hstate]
    by_cases hN : N ≤ ((runRounds clean rounds (j + 1)).length : Int)
    · exact ⟨_, by rw [if_pos hN]⟩
    · rw [if_neg hN]
      have hkj : j + 1 < k := by
        rcases Nat.eq_or_lt_of_le (Nat.succ_le_of_lt h1) with hji | hji
        · rw [← hji] at hk; exact absurd hk hN
        · exact hji
      exact scrapeLoopF_some_of_reached clean rounds N fuel (j + 1) k hkj
        (by omega) hk

/-! ### Lemmas on the download side -/

theorem download_video_fst (hasCb : Bool) (o : ItemOracle) :
    (download_video hasCb o).1 = itemSucceeds o := by
  rcases o with ⟨mk, hooks, ex⟩
  cases mk with
  | some e => rfl
  | none => cases ex <;> rfl

theorem countP_map_subProgress (p : Ev → Bool)
    (hp : ∀ s, p (Ev.subProgress s) = false) (msgs : List String) :
    (msgs.map Ev.subProgress).countP p = 0 := by
  rw [List.countP_eq_zero]
  intro e he
  rw [List.mem_map] at he
  obtain ⟨s, _, rfl⟩ := he
  simp [hp s]

theorem download_video_countP_startItem (hasCb : Bool) (o : ItemOracle) :
    ((download_video hasCb o).2).countP isStartItem = 0 := by
  rcases o with ⟨mk, hooks, ex⟩
  cases mk with
  | some e => cases hasCb <;> simp [download_video, List.countP_cons, isStartItem]
  | none =>
    cases hasCb with
    | false => cases ex <;> simp [download_video]
    | true =>
      cases ex <;>
        simp [download_video, List.countP_append, List.countP_cons, isStartItem,
          countP_map_subProgress isStartItem (fun _ => rfl)]

theorem download_video_countP_outcome (o : ItemOracle) :
    ((download_video true o).2).countP isOutcomeMsg =
      (if emitsOutcomeMsg o then 1 else 0) := by
  rcases o with ⟨mk, hooks, ex⟩
  cases mk with
  | some e => simp [download_video, emitsOutcomeMsg, List.countP_cons, isOutcomeMsg]
  | none =>
    cases ex <;>
      simp [download_video, emitsOutcomeMsg, List.countP_append, List.countP_cons,
        isOutcomeMsg, countP_map_subProgress isOutcomeMsg (fun _ => rfl)]

theorem dmGo_fst (hasCb : Bool) (os : Nat → ItemOracle) (total : Nat) :
    ∀ (urls : List String) (i : Nat),
      (dmGo hasCb os total urls i).1 =
        (outcomeSeq hasCb os urls i).countP (fun b => b)
  | [], _ => rfl
  | _ :: rest, i => by
    rw [dmGo, outcomeSeq, List.countP_cons, dmGo_fst hasCb os total rest (i + 1)]
    by_cases h : (download_video hasCb (os i)).1 <;> simp [h, Nat.add_comm]

theorem dmGo_countP_startItem (os : Nat → ItemOracle) (total : Nat) :
    ∀ (urls : List String) (i : Nat),
      ((dmGo true os total urls i).2).countP isStartItem = urls.length
  | [], _ => rfl
  | _ :: rest, i => by
    rw [dmGo]
    simp only [if_pos rfl, List.countP_append, List.countP_cons]
    rw [download_video_countP_startItem, dmGo_countP_startItem os total rest (i + 1)]
    simp [isStartItem, Nat.add_comm]

theorem dmGo_countP_outcome (os : Nat → ItemOracle) (total : Nat) :
    ∀ (urls : List String) (i : Nat),
      ((dmGo true os total urls i).2).countP isOutcomeMsg =
        (emitSeq os urls i).countP (fun b => b)
  | [], _ => rfl
  | _ :: rest, i => by
    rw [dmGo, emitSeq]
    simp only [if_pos rfl, List.countP_append, List.countP_cons]
    rw [download_video_countP_outcome, dmGo_countP_outcome os total rest (i + 1)]
    by_cases h : emitsOutcomeMsg (os i) <;> simp [h, isOutcomeMsg, Nat.add_comm]

theorem scrapeLoopT_countP_quit (clean : String → String) (o : PageOracle)
    (N : Int) :
    ∀ (fuel k : Nat) (acc : List String),
      ((scrapeLoopT clean o N fuel k acc).2).countP isQuit = 0
  | 0, _, _ => rfl
  | fuel + 1, k, acc => by
    rw [scrapeLoopT]
    cases o.roundRaises k with
    | some e => rfl
    | none =>
      simp only
      split
      · rfl
      · rw [List.countP_cons]
        simp [isQuit, scrapeLoopT_countP_quit clean o N fuel (k + 1) _]

/-! ### Claim theorems -/

/-- **C1.** Across scroll rounds, the collected list `video_urls` never
contains two entries with equal normalized form (for any idempotent
normalizer `clean`), its entries are the normalized discovered hrefs in
first-seen order (it equals the first-seen-order deduplication of everything
discovered so far), and each round only appends: the list grows
monotonically and never shrinks. -/
theorem collected_list_invariants (clean : String → String)
    (rounds : Nat → List (Option String)) (k : Nat) :
    (runRounds clean rounds k).Nodup ∧
    runRounds clean rounds k = dedupFirst (discovered clean rounds k) ∧
    (∃ t, runRounds clean rounds (k + 1) = runRounds clean rounds k ++ t) ∧
    ((∀ s, clean (clean s) = clean s) →
      (runRounds clean rounds k).Pairwise (fun a b => clean a ≠ clean b)) := by
  refine ⟨runRounds_nodup clean rounds k, runRounds_eq_dedupFirst clean rounds k,
    runRounds_growth clean rounds k, ?_⟩
  intro hidem
  refine List.Pairwise.imp_of_mem ?_ (runRounds_nodup clean rounds k)
  intro a b ha hb hab
  obtain ⟨h1, rfl⟩ := mem_runRounds_ran ha
  obtain ⟨h2, rfl⟩ := mem_runRounds_ran hb
  rw [hidem h1, hidem h2]
  exact hab

/-- Witness for C1 at a concrete page and the identity normalizer. -/
theorem collected_list_invariants_witness :
    (runRounds (fun s => s) roundsAB 1).Pairwise
      (fun a b => (fun s : String => s) a ≠ (fun s : String => s) b) ∧
    runRounds (fun s => s) roundsAB 1 = ["watch?v=aaa", "watch?v=bbb"] :=
  ⟨(collected_list_invariants (fun s => s) roundsAB 1).2.2.2 (fun _ => rfl),
    by decide⟩

/-- **C2.** With `0 < N`, whenever the scrape loop exits with collected list
`res`, that list has at least `N` entries and `get_mix_videos` returns
exactly its first `N` entries: a list of length exactly `N` that is an
initial segment of the collected list (itself the state after some number of
rounds, in discovery order). -/
theorem get_mix_videos_first_N (clean : String → String)
    (rounds : Nat → List (Option String)) (N : Int) (fuel : Nat)
    (res : List String) (hN : 0 < N)
    (hrun : scrapeLoopF clean rounds N fuel 0 [] = some res) :
    N ≤ (res.length : Int) ∧
    get_mix_videos clean rounds N fuel = some (res.take N.toNat) ∧
    ((res.take N.toNat).length : Int) = N ∧
    res.take N.toNat ++ res.drop N.toNat = res ∧
    ∃ k, res = runRounds clean rounds k := by
  obtain ⟨k, _, _, hres, hlen, _⟩ :=
    scrapeLoopF_some_characterize clean rounds N fuel 0 res hrun
  have hNle : N ≤ (res.length : Int) := hres ▸ hlen
  have hto : N.toNat ≤ res.length := Int.toNat_le.mpr hNle
  refine ⟨hNle, ?_, ?_, List.take_append_drop _ _, ⟨k, hres⟩⟩
  · simp only [get_mix_videos, if_pos hN, hrun, Option.map_some']
    rw [pyTake, if_pos (le_of_lt hN)]
  · rw [List.length_take, Nat.min_eq_left hto, Int.toNat_of_nonneg (le_of_lt hN)]

/-- Witness for C2: a page supplying two distinct marked hrefs in one round,
asked for one video. -/
theorem get_mix_videos_first_N_witness :
    (0 : Int) < 1 ∧
    get_mix_videos (fun s => s) roundsAB 1 1 = some ["watch?v=aaa"] := by
  have h := get_mix_videos_first_N (fun s => s) roundsAB 1 1
    ["watch?v=aaa", "watch?v=bbb"] (by decide) (by decide)
  refine ⟨by decide, ?_⟩
  rw [h.2.1]
  decide

/-- **C6.** With `0 < N`, the scroll-and-collect loop exits if and only if
some round brings the count of collected unique URLs to at least `N`: an
exit happens exactly at the first round reaching `N` (every earlier round is
below `N`); if some round within the fuel bound reaches `N`, the loop exits;
and if no number of rounds ever reaches `N` (a page that stops producing new
anchors while the count is below `N`), the loop has no other exit. -/
theorem scrape_loop_exits_iff_reaches_N (clean : String → String)
    (rounds : Nat → List (Option String)) (N : Int) (fuel : Nat) (hN : 0 < N) :
    (∀ res, scrapeLoopF clean rounds N fuel 0 [] = some res →
      ∃ k, 0 < k ∧ k ≤ fuel ∧ res = runRounds clean rounds k ∧
        N ≤ ((runRounds clean rounds k).length : Int) ∧
        ∀ i, i < k → ((runRounds clean rounds i).length : Int) < N) ∧
    (∀ k, k ≤ fuel → N ≤ ((runRounds clean rounds k).length : Int) →
      ∃ res, scrapeLoopF clean rounds N fuel 0 [] = some res) ∧
    ((∀ k, ((runRounds clean rounds k).length : Int) < N) →
      scrapeLoopF clean rounds N fuel 0 [] = none) := by
  refine ⟨?_, ?_, ?_⟩
  · intro res h
    obtain ⟨k, hk0, hkf, hres, hlen, hmin⟩ :=
      scrapeLoopF_some_characterize clean rounds N fuel 0 res h
    refine ⟨k, hk0, by omega, hres, hlen, ?_⟩
    intro i hi
    cases Nat.eq_zero_or_pos i with
    | inl h0 =>
      subst h0
      show (((runRounds clean rounds 0).length : Int) < N)
      simpa [runRounds] using hN
    | inr hpos => exact hmin i hpos hi
  · intro k hkf hk
    have hk0 : 0 < k := by
      rcases Nat.eq_zero_or_pos k with h0 | h0
      · subst h0
        simp only [runRounds, List.length_nil, Nat.cast_zero] at hk
        omega
      · exact h0
    exact scrapeLoopF_some_of_reached clean rounds N fuel 0 k hk0 (by omega) hk
  · intro hnever
    exact scrapeLoopF_none_of_never clean rounds N hnever fuel 0

/-- Witness for C6: the page reaches the requested count in its first
round, and the loop indeed exits. -/
theorem scrape_loop_exits_iff_reaches_N_witness :
    (0 : Int) < 1 ∧
    ∃ res, scrapeLoopF (fun s => s) roundsAB 1 2 0 [] = some res :=
  ⟨by decide,
    (scrape_loop_exits_iff_reaches_N (fun s => s) roundsAB 1 2 (by decide)).2.1
      1 (by decide) (by decide)⟩

/-- **C8.** The end-of-round safety-net deduplication (line 75) is the
identity on the accumulator produced by the membership-checked appends of
lines 72-73, whenever the accumulator entering the round is duplicate-free:
same elements, same order. -/
theorem safety_net_dedup_identity (clean : String → String)
    (items : List (Option String)) (acc : List String) (h : acc.Nodup) :
    dedupFirst (collectRound clean items acc) = collectRound clean items acc := by
  rw [collectRound_eq_foldl]
  exact dedupFirst_of_nodup (foldl_insertUniq_nodup _ _ h)

/-- Witness for C8 on a round with a repeated href. -/
theorem safety_net_dedup_identity_witness :
    ([] : List String).Nodup ∧
    dedupFirst (collectRound (fun s => s) (roundsAB 0) []) =
      collectRound (fun s => s) (roundsAB 0) [] :=
  ⟨List.nodup_nil, safety_net_dedup_identity (fun s => s) (roundsAB 0) []
    List.nodup_nil⟩

/-- **C9.** A zero or negative requested count is benign: `get_mix_videos`
never enters the scroll loop (the result is the empty list for every page
oracle and every fuel) and `download_mix` consequently returns `0`, emitting
only its opening message and the zero-successes summary. -/
theorem nonpositive_request_benign (hasCb : Bool) (clean : String → String)
    (rounds : Nat → List (Option String)) (os : Nat → ItemOracle) (N : Int)
    (fuel : Nat) (hN : N ≤ 0) :
    get_mix_videos clean rounds N fuel = some [] ∧
    download_mix hasCb clean rounds os N fuel =
      some (0, (if hasCb then [Ev.startingMsg] else []) ++
        (if hasCb then [Ev.summary 0] else [])) := by
  have h1 : get_mix_videos clean rounds N fuel = some [] := by
    rw [get_mix_videos, if_neg (not_lt.mpr hN)]
    unfold pyTake
    split <;> simp
  refine ⟨h1, ?_⟩
  simp only [download_mix, h1, download_mix_loop, dmGo, List.nil_append]

/-- Witness for C9 at `num_videos = -2`. -/
theorem nonpositive_request_benign_witness :
    (-2 : Int) ≤ 0 ∧
    get_mix_videos (fun s => s) roundsAB (-2) 3 = some [] ∧
    download_mix true (fun s => s) roundsAB osMixed (-2) 3 =
      some (0, [Ev.startingMsg, Ev.summary 0]) := by
  have h := nonpositive_request_benign true (fun s => s) roundsAB osMixed (-2) 3
    (by decide)
  exact ⟨by decide, h.1, by rw [h.2]; rfl⟩

/-- **C3.** The integer returned by `download_mix` over a URL list equals
the number of `true` entries in the sequence of booleans produced by
`download_video` over that list, and this count is invariant under any
permutation of the outcome sequence (in particular under permuting which
positions fail). -/
theorem download_mix_tally_correct (hasCb : Bool) (os : Nat → ItemOracle)
    (urls : List String) :
    (download_mix_loop hasCb os urls).1 =
      (outcomeSeq hasCb os urls 0).countP (fun b => b) ∧
    ∀ p : List Bool, (outcomeSeq hasCb os urls 0).Perm p →
      p.countP (fun b => b) = (outcomeSeq hasCb os urls 0).countP (fun b => b) := by
  constructor
  · exact dmGo_fst hasCb os urls.length urls 0
  · intro p hp
    exact (List.Perm.countP_eq _ hp).symm

/-- Witness for C3: three items with one service failure tally to 2, and a
permutation of the outcome sequence has the same count. -/
theorem download_mix_tally_correct_witness :
    (download_mix_loop true osMixed ["a", "b", "c"]).1 =
      (outcomeSeq true osMixed ["a", "b", "c"] 0).countP (fun b => b) ∧
    ([false, true, true] : List Bool).countP (fun b => b) =
      (outcomeSeq true osMixed ["a", "b", "c"] 0).countP (fun b => b) ∧
    (download_mix_loop true osMixed ["a", "b", "c"]).1 = 2 := by
  have h := download_mix_tally_correct true osMixed ["a", "b", "c"]
  exact ⟨h.1, h.2 [false, true, true] (by decide), by decide⟩

/-- **C4.** A failure on item `k` (service exception or missing metadata)
does not abort the batch: with a callback present, every one of the
`urls.length` items still gets its start-of-item marker, the tally is the
pointwise count of per-item successes (each depending only on that item's
oracle), and changing only item `k` leaves every other item's outcome — and
hence every later success's tally contribution — unchanged. -/
theorem download_failure_isolated (os : Nat → ItemOracle) (urls : List String)
    (k : Nat) (_hfail : itemSucceeds (os k) = false) :
    ((download_mix_loop true os urls).2).countP isStartItem = urls.length ∧
    (download_mix_loop true os urls).1 =
      (outcomeSeq true os urls 0).countP (fun b => b) ∧
    ∀ os' : Nat → ItemOracle, (∀ j, j ≠ k → os' j = os j) →
      ((download_mix_loop true os' urls).2).countP isStartItem = urls.length ∧
      ∀ j, j ≠ k →
        (download_video true (os' j)).1 = (download_video true (os j)).1 := by
  have hstart : ∀ os'' : Nat → ItemOracle,
      ((download_mix_loop true os'' urls).2).countP isStartItem = urls.length := by
    intro os''
    simp only [download_mix_loop, List.countP_append]
    rw [dmGo_countP_startItem]
    simp [isStartItem, List.countP_cons]
  refine ⟨hstart os, dmGo_fst true os urls.length urls 0, ?_⟩
  intro os' hagree
  refine ⟨hstart os', ?_⟩
  intro j hj
  rw [hagree j hj]

/-- Witness for C4: item 1 fails, yet all three items are attempted. -/
theorem download_failure_isolated_witness :
    itemSucceeds (osMixed 1) = false ∧
    ((download_mix_loop true osMixed ["a", "b", "c"]).2).countP isStartItem = 3 := by
  have h := download_failure_isolated osMixed ["a", "b", "c"] 1 (by decide)
  exact ⟨by decide, h.1⟩

/-- **C5.** Whenever `get_mix_videos` completes — returning normally or
propagating an exception from navigation or from any scroll round —
`driver.quit()` is invoked exactly once, and it is the last observable
action before control leaves the function. -/
theorem browser_quit_exactly_once (clean : String → String) (o : PageOracle)
    (N : Int) (fuel : Nat) (r : Except String (List String))
    (hdone : (get_mix_videosT clean o N fuel).1 = some r) :
    ((get_mix_videosT clean o N fuel).2).countP isQuit = 1 ∧
    ((get_mix_videosT clean o N fuel).2).getLast? = some Ev.quit := by
  cases hnav : o.navRaises with
  | some e =>
    simp only [get_mix_videosT, hnav]
    exact ⟨by decide, by decide⟩
  | none =>
    by_cases hN : 0 < N
    · cases hr : (scrapeLoopT clean o N fuel 0 []).1 with
      | none =>
        exfalso
        simp only [get_mix_videosT, hnav, if_pos hN, hr] at hdone
        exact Option.noConfusion hdone
      | some ex =>
        have htr : ((scrapeLoopT clean o N fuel 0 []).2).countP isQuit = 0 :=
          scrapeLoopT_countP_quit clean o N fuel 0 []
        cases ex with
        | error e =>
          simp only [get_mix_videosT, hnav, if_pos hN, hr]
          constructor
          · rw [List.countP_append, List.countP_cons, List.countP_cons]
            simp [isQuit, htr]
          · exact List.getLast?_concat _
        | ok acc =>
          simp only [get_mix_videosT, hnav, if_pos hN, hr]
          constructor
          · rw [List.countP_append, List.countP_cons, List.countP_cons]
            simp [isQuit, htr]
          · exact List.getLast?_concat _
    · simp only [get_mix_videosT, hnav, if_neg hN]
      exact ⟨by decide, by decide⟩

/-- Witness for C5: a session whose navigation raises still quits exactly
once, as the last action. -/
theorem browser_quit_exactly_once_witness :
    ((get_mix_videosT (fun s => s) pageFails 5 0).2).countP isQuit = 1 ∧
    ((get_mix_videosT (fun s => s) pageFails 5 0).2).getLast? = some Ev.quit :=
  browser_quit_exactly_once (fun s => s) pageFails 5 0
    (Except.error "net error") rfl

/-- **C7 counterexample.** One item whose `extract_info` returns `None`
(missing metadata): the item gets its start marker but no completion or
failure message at all — the trace carries zero success/error messages,
refuting the claim that every item receives one. -/
theorem per_item_message_cex :
    ((download_mix_loop true osNoMeta ["u"]).2).countP isStartItem = 1 ∧
    ((download_mix_loop true osNoMeta ["u"]).2).countP isOutcomeMsg = 0 := by
  decide

/-- **C7 (amended).** With a callback present, `download_mix` emits exactly
`urls.length` start-of-item markers, and the number of completion-or-failure
messages equals the number of items that either raise (error report) or
return metadata (success message); an item whose service returns `None`
emits no completion or failure message. -/
theorem per_item_messages (os : Nat → ItemOracle) (urls : List String) :
    ((download_mix_loop true os urls).2).countP isStartItem = urls.length ∧
    ((download_mix_loop true os urls).2).countP isOutcomeMsg =
      (emitSeq os urls 0).countP (fun b => b) ∧
    ∀ o : ItemOracle, ((download_video true o).2).countP isOutcomeMsg =
      (if emitsOutcomeMsg o then 1 else 0) := by
  refine ⟨?_, ?_, download_video_countP_outcome⟩
  · simp only [download_mix_loop, List.countP_append]
    rw [dmGo_countP_startItem]
    simp [isStartItem, List.countP_cons]
  · simp only [download_mix_loop, List.countP_append]
    rw [dmGo_countP_outcome]
    simp [isOutcomeMsg, List.countP_cons]

/-- **C10.** `download_video` is total and returns a boolean: every
directory-creation or service exception is absorbed into the return value
`False` (the result type carries no exception), and the result is `true`
exactly when `os.makedirs` does not raise and the service returns a truthy
info dict. -/
theorem download_video_never_raises (hasCb : Bool) (o : ItemOracle) :
    ((download_video hasCb o).1 = true ↔
      o.mkdirRaises = none ∧ ∃ t, o.extract = ExtractResult.ok t) ∧
    (download_video hasCb o).1 = itemSucceeds o := by
  refine ⟨?_, download_video_fst hasCb o⟩
  rw [download_video_fst]
  rcases o with ⟨mk, hooks, ex⟩
  cases mk with
  | some e => simp [itemSucceeds]
  | none => cases ex <;> simp [itemSucceeds]

/-- Witness for C10: a raising service yields `false`, a metadata-returning
one `true`. -/
theorem download_video_never_raises_witness :
    (download_video true (ItemOracle.mk none [] (ExtractResult.raises "disk full"))).1 = false ∧
    (download_video true (ItemOracle.mk none [] (ExtractResult.ok (some "T")))).1 = true := by
  constructor
  · rw [(download_video_never_raises true
      (ItemOracle.mk none [] (ExtractResult.raises "disk full"))).2]
    decide
  · exact (download_video_never_raises true
      (ItemOracle.mk none [] (ExtractResult.ok (some "T")))).1.mpr
      ⟨rfl, some "T", rfl⟩

end YoutubeMixDl
